import Mathlib

/-!
Verification development for the BarracudaMailer delivery-coordination layer
(`src/modules.js`).  Each JavaScript class or method relevant to the stated
properties is shallowly embedded as an executable Lean definition; theorems
about those definitions settle the properties.

Conventions used throughout:
* JavaScript `Map` objects and plain objects used as dictionaries are
  modelled as insertion-ordered association lists (front = oldest entry,
  matching `Map` iteration order); keys are unique by construction of the
  operations, exactly as for a `Map`.
* Timestamps (`Date.now()`) are `Nat` parameters passed explicitly.
* `Array.prototype.sort` with a consistent comparator is a stable sort; it
  is modelled with `List.insertionSort` (also stable), whose result agrees
  with any stable sort for a total transitive relation.
* Machine numbers stay within safe-integer range here, so `Nat`/`Int`
  model them directly.
-/

/-- Association-list lookup, modelling `map.get(key)` / `obj[key]` for the
insertion-ordered dictionaries below (keys are unique by construction). -/
def assocFind {κ ν : Type} [DecidableEq κ] : List (κ × ν) → κ → Option ν
  | [], _ => none
  | (k, v) :: rest, key => if k = key then some v else assocFind rest key

/-- Remove the entry for `key`, modelling `map.delete(key)` (a `Map` holds
at most one entry per key, so filtering all matches is the same removal). -/
def assocRemove {κ ν : Type} [DecidableEq κ] (l : List (κ × ν)) (key : κ) :
    List (κ × ν) :=
  l.filter (fun p => p.1 ≠ key)

-- ===== AsyncMutex (`class AsyncMutex`, src/modules.js lines 21-60) =====

/-- State of an `AsyncMutex`: the `locked` flag and the FIFO queue of
pending acquirers (`this.queue`).  Each queued entry object is identified
by a numeric id (entries are distinct objects in the source). -/
structure AsyncMutex where
  locked : Bool
  queue : List Nat
  deriving DecidableEq, Repr

/-- `new AsyncMutex()`: unlocked, empty queue. -/
def AsyncMutex.init : AsyncMutex := ⟨false, []⟩

/-- `acquire()` by waiter `id`: if unlocked, set `locked` and resolve the
caller at once (returned as `some id`); otherwise push the entry onto the
queue and resolve nobody yet. -/
def AsyncMutex.acquire (m : AsyncMutex) (id : Nat) : AsyncMutex × Option Nat :=
  if m.locked then ({ m with queue := m.queue ++ [id] }, none)
  else ({ m with locked := true }, some id)

/-- `release()`: with a non-empty queue, shift the front entry and resolve
it (the `locked` flag is not touched); with an empty queue, clear
`locked`. -/
def AsyncMutex.release (m : AsyncMutex) : AsyncMutex × Option Nat :=
  match m.queue with
  | [] => (⟨false, []⟩, none)
  | next :: rest => ({ m with queue := rest }, some next)

/-- The acquire-timeout callback for waiter `id`: if the entry is still
queued (`indexOf(entry) > -1`), splice it out and reject it; it is never
resolved. -/
def AsyncMutex.timeoutRemove (m : AsyncMutex) (id : Nat) : AsyncMutex :=
  if id ∈ m.queue then { m with queue := m.queue.erase id } else m

/-- One interleaved event against a mutex: an `acquire` by a fresh waiter,
a `release`, or a firing acquire-timeout. -/
inductive MutexOp where
  | acq (id : Nat)
  | rel
  | tmo (id : Nat)
  deriving DecidableEq, Repr

/-- Apply one event, returning the new state and the waiter resolved by
the event, if any. -/
def mutexStep (m : AsyncMutex) : MutexOp → AsyncMutex × Option Nat
  | .acq id => m.acquire id
  | .rel => m.release
  | .tmo id => (m.timeoutRemove id, none)

/-- Run a sequence of events from a state. -/
def mutexRun (m : AsyncMutex) : List MutexOp → AsyncMutex
  | [] => m
  | op :: ops => mutexRun (mutexStep m op).1 ops

/-- All waiter ids resolved (granted the lock) along a run. -/
def mutexGrants (m : AsyncMutex) : List MutexOp → List Nat
  | [] => []
  | op :: ops =>
    match mutexStep m op with
    | (m', some g) => g :: mutexGrants m' ops
    | (m', none) => mutexGrants m' ops

-- ===== LRUCache (`class LRUCache`, src/modules.js lines 63-119) =====

/-- The bounded cache: `maxSize`, the insertion-ordered backing map
(front = least recently used), the access counter `_accessCount`, and the
precomputed `_cleanupThreshold = Math.floor(maxSize * 0.1)`. -/
structure LRUCache where
  maxSize : Nat
  cache : List (Nat × Nat)
  accessCount : Nat
  cleanupThreshold : Nat
  deriving DecidableEq, Repr

/-- `new LRUCache(maxSize)`. -/
def LRUCache.mkCache (maxSize : Nat) : LRUCache :=
  ⟨maxSize, [], 0, maxSize / 10⟩

/-- `_batchCleanup()`: delete the first `_cleanupThreshold` keys of the
map (its oldest entries). -/
def LRUCache.batchCleanup (c : LRUCache) : LRUCache :=
  { c with cache := c.cache.drop c.cleanupThreshold }

/-- `get(key)`: on a hit bump `_accessCount`, and on every fifth access
move the entry to the most-recently-used end; on a miss return nothing. -/
def LRUCache.get (c : LRUCache) (key : Nat) : Option Nat × LRUCache :=
  match assocFind c.cache key with
  | some value =>
    let ac := c.accessCount + 1
    if ac % 5 = 0 then
      (some value,
        { c with accessCount := ac,
                 cache := assocRemove c.cache key ++ [(key, value)] })
    else (some value, { c with accessCount := ac })
  | none => (none, c)

/-- `set(key, value)`: refresh an existing key to the most-recently-used
end; otherwise, when at capacity, batch-evict before inserting. -/
def LRUCache.set (c : LRUCache) (key value : Nat) : LRUCache :=
  if (assocFind c.cache key).isSome then
    { c with cache := assocRemove c.cache key ++ [(key, value)] }
  else if c.maxSize ≤ c.cache.length then
    let c' := c.batchCleanup
    { c' with cache := c'.cache ++ [(key, value)] }
  else { c with cache := c.cache ++ [(key, value)] }

/-- Fold a sequence of `set` operations over a cache. -/
def LRUCache.runSets (c : LRUCache) (ops : List (Nat × Nat)) : LRUCache :=
  ops.foldl (fun acc p => acc.set p.1 p.2) c

-- ===== RotationManager (`class RotationManager`, src/modules.js lines 122-330) =====

/-- Rotation state: the (null-filtered) item list, `currentIndex`
(kept as an integer exactly as in the source, where defensive checks
guard against out-of-range and negative values), and the usage-count map
`usageStats` keyed by the stringified item (items are stringified
injectively, so the key is modelled by the item itself). -/
structure RotationState (α : Type) where
  items : List α
  currentIndex : Int
  usageStats : List (α × Nat)

/-- `this.usageStats[key] = (this.usageStats[key] || 0) + 1`: bump an
existing key in place, or append a fresh key with count 1. -/
def bumpUsage {α : Type} [DecidableEq α] : List (α × Nat) → α → List (α × Nat)
  | [], key => [(key, 1)]
  | (k, c) :: rest, key =>
    if k = key then (k, c + 1) :: rest else (k, c) :: bumpUsage rest key

/-- Ordering used to trim `usageStats`: by descending count (the source
comparator `([, a], [, b]) => b - a`; ties keep insertion order because
the sort is stable). -/
def usageOrder {α : Type} (a b : α × Nat) : Prop := b.2 ≤ a.2

instance {α : Type} : DecidableRel (usageOrder (α := α)) :=
  fun a b => inferInstanceAs (Decidable (b.2 ≤ a.2))

/-- The memory-leak guard in `getNext`: keep the top-100 most used
entries, then re-insert the key just selected with count 1 if the trim
dropped it. -/
def trimStats {α : Type} [DecidableEq α] (stats : List (α × Nat)) (key : α) :
    List (α × Nat) :=
  let top := (List.insertionSort usageOrder stats).take 100
  if (assocFind top key).isSome then top else top ++ [(key, 1)]

/-- `getNext()` under the `sequential` strategy (the rotation branch the
stated properties concern): fail on an empty item list; reset an
out-of-range or negative index to 0; clamp to a safe index; select that
item; advance the index with wraparound; bump the usage map and trim it
past 1000 keys. -/
def getNextSeq {α : Type} [DecidableEq α] [Inhabited α]
    (s : RotationState α) : Option (α × RotationState α) :=
  if s.items.length = 0 then none
  else
    let idx0 : Int :=
      if (s.items.length : Int) ≤ s.currentIndex ∨ s.currentIndex < 0 then 0
      else s.currentIndex
    let safe : Nat := (max 0 (min idx0 ((s.items.length : Int) - 1))).toNat
    let item := s.items.getD safe default
    let stats1 := bumpUsage s.usageStats item
    let stats2 := if 1000 < stats1.length then trimStats stats1 item else stats1
    some (item,
      { s with currentIndex := ((safe : Int) + 1) % (s.items.length : Int),
               usageStats := stats2 })

/-- Run `n` consecutive `getNext()` calls, keeping only the final state. -/
def runGetNexts {α : Type} [DecidableEq α] [Inhabited α]
    (s : RotationState α) : Nat → RotationState α
  | 0 => s
  | n + 1 =>
    match getNextSeq s with
    | none => s
    | some (_, s') => runGetNexts s' n

/-- Run `n` consecutive `getNext()` calls, collecting the selected items
in order together with the final state. -/
def collectSeq {α : Type} [DecidableEq α] [Inhabited α]
    (s : RotationState α) : Nat → List α × RotationState α
  | 0 => ([], s)
  | n + 1 =>
    match getNextSeq s with
    | none => ([], s)
    | some (x, s') =>
      let p := collectSeq s' n
      (x :: p.1, p.2)

-- ===== SMTPManager health state (src/modules.js lines 977-983, 1319-1344) =====

/-- Per-server health record, as initialised in the `SMTPManager`
constructor. -/
structure SmtpHealth where
  consecutive_failures : Nat
  last_success : Option Nat
  last_failure : Option Nat
  is_healthy : Bool
  response_times : List Nat
  deriving DecidableEq, Repr

/-- A fresh health record: zero failures, healthy. -/
def SmtpHealth.init : SmtpHealth := ⟨0, none, none, true, []⟩

/-- `markSmtpHealthy(smtpIndex, responseTime)`: reset the failure count,
stamp the success, set healthy; a truthy response time (JavaScript: a
nonzero number) is pushed onto the bounded ring of the last 10 samples. -/
def markSmtpHealthy (h : SmtpHealth) (now : Nat) (responseTime : Option Nat) :
    SmtpHealth :=
  let h1 := { h with consecutive_failures := 0, last_success := some now,
                     is_healthy := true }
  if responseTime.getD 0 ≠ 0 then
    let rts := h1.response_times ++ [responseTime.getD 0]
    { h1 with response_times := if 10 < rts.length then rts.tail else rts }
  else h1

/-- `markSmtpUnhealthy(smtpIndex, error)`: bump the consecutive-failure
count, stamp the failure, and clear `is_healthy` once the count has
reached 3. -/
def markSmtpUnhealthy (h : SmtpHealth) (now : Nat) : SmtpHealth :=
  let f := h.consecutive_failures + 1
  { h with consecutive_failures := f, last_failure := some now,
           is_healthy := if 3 ≤ f then false else h.is_healthy }

-- ===== SMTPManager rate limiting (src/modules.js lines 986-1000, 1409-1515) =====

/-- Per-server rate-limit record, as initialised in the constructor:
`emailsPerMinute := config.smtp.rateLimit?.emailsPerMinute || 30` (so a
configured zero falls back to 30 and the stored ceiling is never zero),
`cooldownDuration := (config.smtp.rateLimit.cooldownPeriod || 60) * 1000`. -/
structure RateLimitState where
  smtpIndex : Nat
  emailsSentInCurrentMinute : Nat
  currentMinuteStart : Nat
  isLimited : Bool
  isCoolingDown : Bool
  cooldownStartTime : Option Nat
  cooldownDuration : Nat
  emailsPerMinute : Nat
  lastEmailTime : Nat
  consecutiveLimitHits : Nat
  deriving DecidableEq, Repr

/-- The constructor's rate-limit record for server `index` at time `now`,
with the raw configured values (note the `|| 30` and `|| 60` fallbacks). -/
def initRateLimitState (index : Nat) (now : Nat)
    (cfgEmailsPerMinute cfgCooldownPeriod : Nat) : RateLimitState :=
  { smtpIndex := index
    emailsSentInCurrentMinute := 0
    currentMinuteStart := now
    isLimited := false
    isCoolingDown := false
    cooldownStartTime := none
    cooldownDuration := (if cfgCooldownPeriod = 0 then 60 else cfgCooldownPeriod) * 1000
    emailsPerMinute := if cfgEmailsPerMinute = 0 then 30 else cfgEmailsPerMinute
    lastEmailTime := 0
    consecutiveLimitHits := 0 }

/-- `incrementSmtpRateLimit(smtpIndex)` (rate limiting enabled): clamp the
window counter at the ceiling, `Math.min(currentCount + 1,
rateLimit.emailsPerMinute || 30)`, and stamp `lastEmailTime`. -/
def incrementSmtpRateLimit (st : RateLimitState) (now : Nat) : RateLimitState :=
  { st with
      emailsSentInCurrentMinute :=
        min (st.emailsSentInCurrentMinute + 1)
          (if st.emailsPerMinute = 0 then 30 else st.emailsPerMinute)
      lastEmailTime := now }

/-- The failed-send rollback in `sendMail`'s catch block: decrement the
window counter, floored at 0. -/
def rollbackRateLimit (st : RateLimitState) : RateLimitState :=
  if 0 < st.emailsSentInCurrentMinute then
    { st with emailsSentInCurrentMinute := st.emailsSentInCurrentMinute - 1 }
  else st

/-- `_resetRateLimitCounter(smtpIndex)`: zero the window counter, restart
the window, clear `isLimited`. -/
def resetRateLimitCounter (st : RateLimitState) (now : Nat) : RateLimitState :=
  { st with emailsSentInCurrentMinute := 0, currentMinuteStart := now,
            isLimited := false }

/-- `_putSMTPIntoCooldown(smtpIndex)` (timer scheduling aside): raise the
cooling flag and stamp its start. -/
def putSMTPIntoCooldown (st : RateLimitState) (now : Nat) : RateLimitState :=
  { st with isCoolingDown := true, cooldownStartTime := some now }

/-- `_removeSMTPFromCooldown(smtpIndex)` (timer cancellation aside):
clear the cooling state. -/
def removeSMTPFromCooldown (st : RateLimitState) : RateLimitState :=
  { st with isCoolingDown := false, cooldownStartTime := none,
            isLimited := false }

/-- One counter-mutating rate-limit operation, as named in the source:
the post-check increment, the failed-send rollback, and the window reset
(fired by `checkSmtpRateLimit` or the 60-second interval). -/
inductive RateOp where
  | increment (now : Nat)
  | rollback
  | reset (now : Nat)
  deriving DecidableEq, Repr

/-- Apply one rate-limit operation. -/
def applyRateOp (st : RateLimitState) : RateOp → RateLimitState
  | .increment now => incrementSmtpRateLimit st now
  | .rollback => rollbackRateLimit st
  | .reset now => resetRateLimitCounter st now

/-- Apply a sequence of rate-limit operations. -/
def applyRateOps (st : RateLimitState) (ops : List RateOp) : RateLimitState :=
  ops.foldl applyRateOp st

/-- The `{allowed, waitTime, reason}` record returned by
`checkSmtpRateLimit`. -/
structure RateCheckResult where
  allowed : Bool
  waitTime : Nat
  reason : Option String
  deriving DecidableEq, Repr

/-- `checkSmtpRateLimit(smtpIndex)` at time `now`, returning the check
result and the (possibly lazily transitioned) state: with rate limiting
disabled always allow; during cooldown either lazily exit an elapsed
cooldown or report the remaining wait; otherwise reset an expired
60-second window, then either enter cooldown when the counter has hit the
ceiling or allow. -/
def checkSmtpRateLimit (enabled : Bool) (st : RateLimitState) (now : Nat) :
    RateCheckResult × RateLimitState :=
  if enabled = false then (⟨true, 0, none⟩, st)
  else if st.isCoolingDown then
    let cooldownTimeLeft : Int :=
      (st.cooldownStartTime.getD 0 : Int) + (st.cooldownDuration : Int) - (now : Int)
    if cooldownTimeLeft ≤ 0 then (⟨true, 0, none⟩, removeSMTPFromCooldown st)
    else (⟨false, cooldownTimeLeft.toNat, some "cooldown"⟩, st)
  else
    let st1 := if 60000 ≤ now - st.currentMinuteStart
               then resetRateLimitCounter st now else st
    if st1.emailsPerMinute ≤ st1.emailsSentInCurrentMinute then
      (⟨false, st1.cooldownDuration, some "rate_limit_exceeded"⟩,
        putSMTPIntoCooldown st1 now)
    else (⟨true, 0, none⟩, st1)

-- ===== SMTPManager server selection (src/modules.js lines 1263-1298) =====

/-- The per-server view `{config, index, health, rateLimit}` that
`getAvailableSMTPs` builds from the three aligned arrays (`priority` is
the relevant piece of the config). -/
structure SmtpServerEntry where
  index : Nat
  priority : Int
  health : SmtpHealth
  rateLimit : RateLimitState
  deriving DecidableEq, Repr

/-- The selection ordering used by the final `availableSmtps.sort`:
descending priority, ties broken by ascending consecutive-failure count
(`a` sorts before `b` exactly when the source comparator is ≤ 0). -/
def smtpOrder (a b : SmtpServerEntry) : Prop :=
  b.priority < a.priority ∨
    (a.priority = b.priority ∧
      a.health.consecutive_failures ≤ b.health.consecutive_failures)

instance : DecidableRel smtpOrder :=
  fun a b =>
    inferInstanceAs (Decidable (b.priority < a.priority ∨
      (a.priority = b.priority ∧
        a.health.consecutive_failures ≤ b.health.consecutive_failures)))

instance : IsTotal SmtpServerEntry smtpOrder where
  total a b := by
    unfold smtpOrder
    rcases lt_trichotomy a.priority b.priority with h | h | h
    · exact Or.inr (Or.inl h)
    · rcases Nat.le_total a.health.consecutive_failures
        b.health.consecutive_failures with h2 | h2
      · exact Or.inl (Or.inr ⟨h, h2⟩)
      · exact Or.inr (Or.inr ⟨h.symm, h2⟩)
    · exact Or.inl (Or.inl h)

instance : IsTrans SmtpServerEntry smtpOrder where
  trans a b c hab hbc := by
    unfold smtpOrder at *
    rcases hab with h1 | ⟨h1, h1'⟩ <;> rcases hbc with h2 | ⟨h2, h2'⟩
    · exact Or.inl (h2.trans h1)
    · exact Or.inl (h2 ▸ h1)
    · exact Or.inl (h1 ▸ h2)
    · exact Or.inr ⟨h1.trans h2, h1'.trans h2'⟩

/-- The availability filter: with rate limiting enabled a server must be
healthy, not cooling down and not limited; with it disabled, healthy
suffices. -/
def smtpAvailable (rateLimitEnabled : Bool) (s : SmtpServerEntry) : Bool :=
  if rateLimitEnabled then
    s.health.is_healthy && !s.rateLimit.isCoolingDown && !s.rateLimit.isLimited
  else s.health.is_healthy

/-- `getAvailableSMTPs()`: consider every server when rotation is
enabled, only server 0 otherwise; filter by availability; when the
filtered set is empty fall back to all healthy servers (returned as
built, without sorting); otherwise return the filtered set sorted by
`smtpOrder`. -/
def getAvailableSMTPs (rotationEnabled rateLimitEnabled : Bool)
    (servers : List SmtpServerEntry) : List SmtpServerEntry :=
  let allSmtps := if rotationEnabled then servers else servers.take 1
  let availableSmtps := allSmtps.filter (smtpAvailable rateLimitEnabled)
  if availableSmtps.length = 0 then
    let healthySmtps := allSmtps.filter (fun s => s.health.is_healthy)
    if 0 < healthySmtps.length then healthySmtps
    else List.insertionSort smtpOrder availableSmtps
  else List.insertionSort smtpOrder availableSmtps

-- ===== Send machinery (src/modules.js lines 2135-2338; caller loop in README.md) =====

/-- Outcome of one underlying `sendMail` call: success, or a thrown error
carrying its `error.code`. -/
inductive SendAttemptResult where
  | ok
  | err (code : String)
  deriving DecidableEq, Repr

/-- The `for` loop inside `sendMailWithRetry`, from `attempt` with `fuel`
iterations left, carrying `lastError`; returns the number of attempts
performed and the final result. -/
def sendMailRetryLoop (outcome : Nat → SendAttemptResult) :
    Nat → Nat → SendAttemptResult → Nat × SendAttemptResult
  | attempt, 0, last => (attempt - 1, last)
  | attempt, fuel + 1, _ =>
    match outcome attempt with
    | .ok => (attempt, .ok)
    | .err c => sendMailRetryLoop outcome (attempt + 1) fuel (.err c)

/-- `sendMailWithRetry(mailOptions, maxRetries)`: a bounded loop that
retries every failure (with an exponential delay, irrelevant to control
flow) and rethrows the last error on exhaustion.  `outcome n` is the
result of the `n`-th `sendMail` call (1-based). -/
def sendMailWithRetry (retries : Nat) (outcome : Nat → SendAttemptResult) :
    Nat × SendAttemptResult :=
  sendMailRetryLoop outcome 1 retries (.err "")

/-- The caller-side permanent-error test in the top-level `sendEmail` loop
(README.md): authentication, connection-refused and host-not-found errors
are never retried. -/
def isPermanentSendError (code : String) : Bool :=
  code = "EAUTH" || code = "ECONNREFUSED" || code = "ENOTFOUND"

/-- The top-level `sendEmail` retry loop (README.md): call
`smtpManager.sendMail`; on success stop; on a permanent error stop
without retrying; otherwise retry (bounded by `maxAttempts` total
attempts and gated by `retryEnabled`).  `prior` counts the attempts
already made; the result is the total number of `sendMail` calls
performed. -/
def sendEmailAttempts (retryEnabled : Bool) (maxAttempts : Nat)
    (outcome : Nat → SendAttemptResult) (prior : Nat) : Nat :=
  let n := prior + 1
  match outcome n with
  | .ok => n
  | .err code =>
    if isPermanentSendError code then n
    else if retryEnabled && n < maxAttempts then
      sendEmailAttempts retryEnabled maxAttempts outcome n
    else n
termination_by maxAttempts - prior
decreasing_by
  simp only [Bool.and_eq_true, decide_eq_true_eq] at *
  omega

/-- Result of `sendMail`'s rate-limit gate: either control falls through
to the increment-and-transmit path (carrying the backoff waits performed
and whether the last check allowed the send), or the recursion depth
guard fires and the send fails with the rate-limit-exceeded error. -/
inductive GateOutcome where
  | proceed (waits : List Nat) (lastAllowed : Bool)
  | rateLimitExceeded (waits : List Nat) (retryCount : Nat)
  deriving DecidableEq, Repr

/-- The rate-limit gate at the top of `sendMail` (lines 2180-2204):
check the limit; when disallowed, throw past 5 retries, otherwise wait
`Math.min(waitTime * 2^retryCount, 30000)` and recurse with
`retryCount + 1`; a disallowed check with zero wait falls through.
`check n` is the outcome of the check performed at recursion depth `n`
(each recursion re-selects a server and re-checks). -/
def sendGate (check : Nat → RateCheckResult) (retryCount : Nat) : GateOutcome :=
  let rl := check retryCount
  if rl.allowed then .proceed [] true
  else if 5 ≤ retryCount then .rateLimitExceeded [] retryCount
  else if 0 < rl.waitTime then
    let backoffTime := min (rl.waitTime * 2 ^ retryCount) 30000
    match sendGate check (retryCount + 1) with
    | .proceed ws b => .proceed (backoffTime :: ws) b
    | .rateLimitExceeded ws r => .rateLimitExceeded (backoffTime :: ws) r
  else .proceed [] false
termination_by 5 - retryCount
decreasing_by omega

-- ===== Helper lemmas =====

/-- The three counter-mutating operations never touch the stored ceiling. -/
theorem applyRateOp_emailsPerMinute (st : RateLimitState) (op : RateOp) :
    (applyRateOp st op).emailsPerMinute = st.emailsPerMinute := by
  cases op <;>
    simp only [applyRateOp, incrementSmtpRateLimit, rollbackRateLimit,
      resetRateLimitCounter] <;> split <;> rfl

/-- One operation preserves the counter-below-ceiling invariant (the
stored ceiling being nonzero, as the constructor guarantees). -/
theorem applyRateOp_counter_le (st : RateLimitState) (op : RateOp)
    (hM : st.emailsPerMinute ≠ 0)
    (h : st.emailsSentInCurrentMinute ≤ st.emailsPerMinute) :
    (applyRateOp st op).emailsSentInCurrentMinute ≤
      (applyRateOp st op).emailsPerMinute := by
  cases op with
  | increment now =>
    simp only [applyRateOp, incrementSmtpRateLimit, hM, if_false]
    omega
  | rollback =>
    simp only [applyRateOp, rollbackRateLimit]
    split
    · simp only []
      omega
    · exact h
  | reset now =>
    simp [applyRateOp, resetRateLimitCounter]

-- ===== C1 =====

/-- C1: the per-server rate-limit window counter never exceeds the stored
ceiling `emailsPerMinute`: it does so in the freshly constructed state
(where the counter is 0 and the ceiling is `configured || 30`, hence
nonzero), and the invariant is preserved by every sequence of the three
counter-mutating operations (`incrementSmtpRateLimit`, the failed-send
rollback decrement, `_resetRateLimitCounter`). -/
theorem rate_counter_never_exceeds_ceiling
    (index now cfgE cfgC : Nat) (st : RateLimitState)
    (hM : st.emailsPerMinute ≠ 0)
    (hinv : st.emailsSentInCurrentMinute ≤ st.emailsPerMinute)
    (ops : List RateOp) :
    (initRateLimitState index now cfgE cfgC).emailsSentInCurrentMinute ≤
      (initRateLimitState index now cfgE cfgC).emailsPerMinute ∧
    (applyRateOps st ops).emailsSentInCurrentMinute ≤
      (applyRateOps st ops).emailsPerMinute := by
  constructor
  · simp [initRateLimitState]
  · induction ops generalizing st with
    | nil => exact hinv
    | cons op ops ih =>
      have hM' : (applyRateOp st op).emailsPerMinute ≠ 0 := by
        rw [applyRateOp_emailsPerMinute]; exact hM
      exact ih (applyRateOp st op) hM' (applyRateOp_counter_le st op hM hinv)

/-- Witness for C1: a concrete server state at ceiling 30 with counter 7,
run through an increment, a rollback and a reset. -/
theorem rate_counter_never_exceeds_ceiling_witness :
    (applyRateOps ⟨0, 7, 0, false, false, none, 60000, 30, 0, 0⟩
        [RateOp.increment 5, RateOp.rollback, RateOp.reset 9]).emailsSentInCurrentMinute ≤
      (applyRateOps ⟨0, 7, 0, false, false, none, 60000, 30, 0, 0⟩
        [RateOp.increment 5, RateOp.rollback, RateOp.reset 9]).emailsPerMinute :=
  (rate_counter_never_exceeds_ceiling 0 0 30 60
    ⟨0, 7, 0, false, false, none, 60000, 30, 0, 0⟩ (by decide) (by decide)
    [RateOp.increment 5, RateOp.rollback, RateOp.reset 9]).2

-- ===== C2 =====

/-- C2 counterexample: drive a fresh server (ceiling 30) to its ceiling
with 30 increments, then perform the increment-then-failed-send-rollback
pair of one more send: the increment clamps at the ceiling, so the
rollback leaves the counter at 29, not at its pre-increment value 30 —
the claimed rollback law fails for a counter already at the ceiling. -/
theorem rollback_at_ceiling_not_net_unchanged :
    (applyRateOps (initRateLimitState 0 0 30 60)
        (List.replicate 30 (RateOp.increment 0))).emailsSentInCurrentMinute = 30 ∧
    ¬ ((rollbackRateLimit (incrementSmtpRateLimit
          (applyRateOps (initRateLimitState 0 0 30 60)
            (List.replicate 30 (RateOp.increment 0))) 0)).emailsSentInCurrentMinute =
        (applyRateOps (initRateLimitState 0 0 30 60)
          (List.replicate 30 (RateOp.increment 0))).emailsSentInCurrentMinute) := by
  decide

/-- C2 (amended): a send that increments the counter and then fails rolls
the counter back to exactly its pre-increment value whenever that value
was strictly below the ceiling; when the counter already sat at the
ceiling, the increment clamps (no-op) and the rollback nets a decrease of
one. -/
theorem rollback_net_effect (st : RateLimitState) (now : Nat)
    (hM : st.emailsPerMinute ≠ 0) :
    (st.emailsSentInCurrentMinute < st.emailsPerMinute →
      (rollbackRateLimit (incrementSmtpRateLimit st now)).emailsSentInCurrentMinute =
        st.emailsSentInCurrentMinute) ∧
    (st.emailsSentInCurrentMinute = st.emailsPerMinute →
      (rollbackRateLimit (incrementSmtpRateLimit st now)).emailsSentInCurrentMinute =
        st.emailsPerMinute - 1) := by
  unfold rollbackRateLimit incrementSmtpRateLimit
  constructor <;> intro h <;> simp only [hM, if_false] <;> split <;> simp_all <;> omega

/-- Witness for C2 (amended): both branches at ceiling 30, counters 7 and
30. -/
theorem rollback_net_effect_witness :
    (rollbackRateLimit (incrementSmtpRateLimit
        ⟨0, 7, 0, false, false, none, 60000, 30, 0, 0⟩ 3)).emailsSentInCurrentMinute = 7 ∧
    (rollbackRateLimit (incrementSmtpRateLimit
        ⟨0, 30, 0, false, false, none, 60000, 30, 0, 0⟩ 3)).emailsSentInCurrentMinute = 29 :=
  ⟨(rollback_net_effect ⟨0, 7, 0, false, false, none, 60000, 30, 0, 0⟩ 3
      (by decide)).1 (by decide),
   (rollback_net_effect ⟨0, 30, 0, false, false, none, 60000, 30, 0, 0⟩ 3
      (by decide)).2 (by decide)⟩

-- ===== C5 =====

/-- C5: a server flips unhealthy exactly when the consecutive-failure
count reaches 3 (`markSmtpUnhealthy` on 2 prior failures clears
`is_healthy` and sets the count to 3; on fewer prior failures a healthy
server stays healthy), and `markSmtpHealthy` always sets `is_healthy` and
resets the count to 0. -/
theorem health_flip_at_three_failures (h : SmtpHealth) (t t' : Nat)
    (rt : Option Nat) :
    (h.consecutive_failures = 2 →
      (markSmtpUnhealthy h t).is_healthy = false ∧
      (markSmtpUnhealthy h t).consecutive_failures = 3) ∧
    (h.consecutive_failures < 2 → h.is_healthy = true →
      (markSmtpUnhealthy h t).is_healthy = true) ∧
    (markSmtpHealthy h t' rt).is_healthy = true ∧
    (markSmtpHealthy h t' rt).consecutive_failures = 0 := by
  refine ⟨fun h2 => ?_, fun hlt hh => ?_, ?_, ?_⟩
  · simp [markSmtpUnhealthy, h2]
  · simp only [markSmtpUnhealthy]
    have : ¬ 3 ≤ h.consecutive_failures + 1 := by omega
    simp [this, hh]
  · simp only [markSmtpHealthy]; split <;> rfl
  · simp only [markSmtpHealthy]; split <;> rfl

/-- Witness for C5: a healthy server with 2 prior failures flips
unhealthy on the next failure; one with a single failure stays healthy; a
success on an unhealthy server restores it. -/
theorem health_flip_at_three_failures_witness :
    (markSmtpUnhealthy ⟨2, none, none, true, []⟩ 11).is_healthy = false ∧
    (markSmtpUnhealthy ⟨1, none, none, true, []⟩ 12).is_healthy = true ∧
    (markSmtpHealthy ⟨5, none, some 4, false, []⟩ 13 (some 250)).is_healthy = true ∧
    (markSmtpHealthy ⟨5, none, some 4, false, []⟩ 13 (some 250)).consecutive_failures = 0 :=
  ⟨((health_flip_at_three_failures ⟨2, none, none, true, []⟩ 11 13 (some 250)).1
      (by decide)).1,
   (health_flip_at_three_failures ⟨1, none, none, true, []⟩ 12 13 (some 250)).2.1
      (by decide) (by decide),
   (health_flip_at_three_failures ⟨5, none, some 4, false, []⟩ 11 13 (some 250)).2.2.1,
   (health_flip_at_three_failures ⟨5, none, some 4, false, []⟩ 11 13 (some 250)).2.2.2⟩

-- ===== C10 =====

/-- One mutex event preserves the "a non-empty queue implies the lock is
held" invariant: waiters only ever enqueue behind a held lock. -/
theorem mutexStep_queue_locked (m : AsyncMutex) (op : MutexOp)
    (h : m.queue ≠ [] → m.locked = true) :
    (mutexStep m op).1.queue ≠ [] → (mutexStep m op).1.locked = true := by
  cases op with
  | acq id =>
    simp only [mutexStep, AsyncMutex.acquire]
    by_cases hl : m.locked
    · simp [hl]
    · simp [hl]
  | rel =>
    simp only [mutexStep, AsyncMutex.release]
    match hq : m.queue with
    | [] => intro hne; exact absurd rfl hne
    | next :: rest =>
      intro _
      exact h (by simp [hq])
  | tmo id =>
    simp only [mutexStep, AsyncMutex.timeoutRemove]
    split
    · intro hne
      apply h
      intro hq
      simp [hq] at hne
    · exact h

/-- The queue-implies-locked invariant holds along every run from a state
satisfying it. -/
theorem mutexRun_queue_locked (ops : List MutexOp) (m : AsyncMutex)
    (h : m.queue ≠ [] → m.locked = true) :
    (mutexRun m ops).queue ≠ [] → (mutexRun m ops).locked = true := by
  induction ops generalizing m with
  | nil => exact h
  | cons op ops ih => exact ih (mutexStep m op).1 (mutexStep_queue_locked m op h)

/-- From a state whose queue does not hold `id`, a run containing no
fresh `acquire` by `id` never grants `id` and never re-enqueues it. -/
theorem mutexGrants_not_mem (ops : List MutexOp) (id : Nat) (m : AsyncMutex)
    (hq : id ∉ m.queue) (hops : ∀ op ∈ ops, op ≠ MutexOp.acq id) :
    id ∉ mutexGrants m ops ∧ id ∉ (mutexRun m ops).queue := by
  induction ops generalizing m with
  | nil => exact ⟨by simp [mutexGrants], hq⟩
  | cons op ops ih =>
    have hops' : ∀ o ∈ ops, o ≠ MutexOp.acq id := fun o ho => hops o (by simp [ho])
    have hstep : id ∉ (mutexStep m op).1.queue ∧ (mutexStep m op).2 ≠ some id := by
      cases op with
      | acq j =>
        have hj : j ≠ id := by
          intro hji; exact hops (MutexOp.acq j) (by simp) (by rw [hji])
        simp only [mutexStep, AsyncMutex.acquire]
        split
        · constructor
          · simp only [List.mem_append, List.mem_singleton]
            rintro (hmem | hji)
            · exact hq hmem
            · exact hj hji.symm
          · simp
        · exact ⟨hq, by simp [hj]⟩
      | rel =>
        simp only [mutexStep, AsyncMutex.release]
        match hqe : m.queue with
        | [] => exact ⟨by simp, by simp⟩
        | next :: rest =>
          rw [hqe] at hq
          constructor
          · intro hmem; exact hq (by simp [hmem])
          · simp only [ne_eq, Option.some.injEq]
            intro hni; exact hq (by simp [hni])
      | tmo j =>
        simp only [mutexStep, AsyncMutex.timeoutRemove]
        refine ⟨?_, by simp⟩
        split
        · intro hmem; exact hq (List.mem_of_mem_erase hmem)
        · exact hq
    have htail := ih (mutexStep m op).1 hstep.1 hops'
    constructor
    · simp only [mutexGrants]
      match hg : mutexStep m op with
      | (m', some g) =>
        simp only [List.mem_cons]
        rintro (hgid | hmem)
        · exact hstep.2 (by rw [hg, hgid])
        · have : (mutexStep m op).1 = m' := by rw [hg]
          rw [this] at htail
          exact htail.1 hmem
      | (m', none) =>
        intro hmem
        have : (mutexStep m op).1 = m' := by rw [hg]
        rw [this] at htail
        exact htail.1 hmem
    · exact htail.2

/-- C10: on every reachable mutex state, `release()` with a non-empty
queue resolves the front (longest-waiting) entry and leaves `locked`
true, handing the lock over without an intermediate unlocked state;
`release()` with an empty queue clears `locked`; and once a waiter's
acquire-timeout has removed it (waiters being distinct entries, and the
removed entry never re-issued), no later sequence of events grants it the
lock. -/
theorem asyncMutex_fifo_handoff (ops more : List MutexOp) (id : Nat)
    (hnd : (mutexRun AsyncMutex.init ops).queue.Nodup)
    (hmore : ∀ op ∈ more, op ≠ MutexOp.acq id) :
    (∀ next rest, (mutexRun AsyncMutex.init ops).queue = next :: rest →
      (mutexStep (mutexRun AsyncMutex.init ops) MutexOp.rel).2 = some next ∧
      (mutexStep (mutexRun AsyncMutex.init ops) MutexOp.rel).1.locked = true ∧
      (mutexStep (mutexRun AsyncMutex.init ops) MutexOp.rel).1.queue = rest) ∧
    ((mutexRun AsyncMutex.init ops).queue = [] →
      (mutexStep (mutexRun AsyncMutex.init ops) MutexOp.rel).1.locked = false) ∧
    id ∉ mutexGrants (mutexStep (mutexRun AsyncMutex.init ops) (MutexOp.tmo id)).1 more := by
  refine ⟨?_, ?_, ?_⟩
  · intro next rest hq
    have hlock : (mutexRun AsyncMutex.init ops).locked = true :=
      mutexRun_queue_locked ops AsyncMutex.init (by simp [AsyncMutex.init])
        (by simp [hq])
    simp only [mutexStep, AsyncMutex.release]
    rw [hq]
    exact ⟨rfl, hlock, rfl⟩
  · intro hq
    simp only [mutexStep, AsyncMutex.release]
    rw [hq]
  · have hout : id ∉ (mutexStep (mutexRun AsyncMutex.init ops) (MutexOp.tmo id)).1.queue := by
      simp only [mutexStep, AsyncMutex.timeoutRemove]
      split
      · exact hnd.not_mem_erase
      · next hmem => exact hmem
    exact (mutexGrants_not_mem more id _ hout hmore).1

/-- Witness for C10: two acquires (waiter 1 gets the lock, waiter 2
queues), after which a release hands off to waiter 2 with the lock still
held; and a timed-out waiter 2 is never granted across two subsequent
releases. -/
theorem asyncMutex_fifo_handoff_witness :
    (mutexStep (mutexRun AsyncMutex.init [MutexOp.acq 1, MutexOp.acq 2]) MutexOp.rel).2 = some 2 ∧
    (mutexStep (mutexRun AsyncMutex.init [MutexOp.acq 1, MutexOp.acq 2]) MutexOp.rel).1.locked = true ∧
    (2 : Nat) ∉ mutexGrants
      (mutexStep (mutexRun AsyncMutex.init [MutexOp.acq 1, MutexOp.acq 2]) (MutexOp.tmo 2)).1
      [MutexOp.rel, MutexOp.rel] := by
  have h := asyncMutex_fifo_handoff [MutexOp.acq 1, MutexOp.acq 2]
    [MutexOp.rel, MutexOp.rel] 2 (by decide) (by decide)
  exact ⟨(h.1 2 [] (by decide)).1, (h.1 2 [] (by decide)).2.1, h.2.2⟩

-- ===== C7 =====

/-- When every attempt fails, the `sendMailWithRetry` loop runs through
all its remaining attempts and reports the last error. -/
theorem sendMailRetryLoop_all_fail (outcome : Nat → SendAttemptResult)
    (c : String) (hall : ∀ n, outcome n = SendAttemptResult.err c) :
    ∀ fuel, 1 ≤ fuel → ∀ attempt last,
      sendMailRetryLoop outcome attempt fuel last =
        (attempt + fuel - 1, SendAttemptResult.err c) := by
  intro fuel
  induction fuel with
  | zero => intro h; omega
  | succ f ih =>
    intro _ attempt last
    simp only [sendMailRetryLoop, hall attempt]
    by_cases hf : 1 ≤ f
    · rw [ih hf (attempt + 1) (SendAttemptResult.err c)]
      congr 1
      omega
    · have hf0 : f = 0 := by omega
      subst hf0
      simp only [sendMailRetryLoop]

/-- The caller's retry loop always performs at least one more attempt
than were already made. -/
theorem sendEmailAttempts_lower_bound (re : Bool) (ma : Nat)
    (outcome : Nat → SendAttemptResult) :
    ∀ k prior, ma - prior ≤ k → prior + 1 ≤ sendEmailAttempts re ma outcome prior := by
  intro k
  induction k with
  | zero =>
    intro prior hk
    rw [sendEmailAttempts]
    split
    · omega
    · split
      · omega
      · split
        · next hcond =>
          simp only [Bool.and_eq_true, decide_eq_true_eq] at hcond
          omega
        · omega
  | succ f ih =>
    intro prior hk
    rw [sendEmailAttempts]
    split
    · omega
    · split
      · omega
      · split
        · have := ih (prior + 1) (by omega)
          omega
        · omega

/-- C7 counterexample: `sendMailWithRetry` applies its bounded retry loop
to an authentication failure exactly as to any other error — with
`maxRetries = 3` and every underlying `sendMail` throwing `EAUTH`, three
send attempts are performed, not the single immediate propagation the
claim requires of the retry wrapper. -/
theorem sendMailWithRetry_retries_terminal :
    sendMailWithRetry 3 (fun _ => SendAttemptResult.err "EAUTH") =
      (3, SendAttemptResult.err "EAUTH") ∧
    ¬ (sendMailWithRetry 3 (fun _ => SendAttemptResult.err "EAUTH")).1 = 1 := by
  decide

/-- C7 (amended): the terminal-error classification lives in the
top-level `sendEmail` caller loop, not in the wrapper:
`sendMailWithRetry` classifies nothing and retries every persistent
failure through all `retries` attempts, while the caller loop stops after
a single attempt on an `EAUTH`/`ECONNREFUSED`/`ENOTFOUND` failure
(propagating it with no further send) and retries other errors
(at least a second attempt when retrying is enabled and the attempt
budget allows). -/
theorem terminal_classification_in_caller
    (re : Bool) (maxAttempts retries : Nat) (c c' : String)
    (outcome outcome' : Nat → SendAttemptResult)
    (hall : ∀ n, outcome n = SendAttemptResult.err c)
    (hall' : ∀ n, outcome' n = SendAttemptResult.err c')
    (hr : 1 ≤ retries)
    (hp : isPermanentSendError c = true)
    (hp' : isPermanentSendError c' = false)
    (hm : 2 ≤ maxAttempts) :
    sendMailWithRetry retries outcome = (retries, SendAttemptResult.err c) ∧
    sendEmailAttempts re maxAttempts outcome 0 = 1 ∧
    2 ≤ sendEmailAttempts true maxAttempts outcome' 0 ∧
    isPermanentSendError "EAUTH" = true ∧
    isPermanentSendError "ECONNREFUSED" = true ∧
    isPermanentSendError "ENOTFOUND" = true := by
  refine ⟨?_, ?_, ?_, by decide, by decide, by decide⟩
  · unfold sendMailWithRetry
    rw [sendMailRetryLoop_all_fail outcome c hall retries hr 1 (SendAttemptResult.err "")]
    congr 1
    omega
  · rw [sendEmailAttempts, hall 1]
    simp [hp]
  · rw [sendEmailAttempts, hall' 1]
    simp only [hp', if_false, Bool.false_eq_true]
    rw [if_pos (by simp [hm]; omega)]
    exact sendEmailAttempts_lower_bound true maxAttempts outcome' maxAttempts 1 (by omega)

/-- Witness for C7 (amended): a persistent `EAUTH` failure makes the
caller loop stop at one attempt, while a persistent `ETIMEDOUT` failure
is retried. -/
theorem terminal_classification_in_caller_witness :
    sendEmailAttempts false 3 (fun _ => SendAttemptResult.err "EAUTH") 0 = 1 ∧
    2 ≤ sendEmailAttempts true 3 (fun _ => SendAttemptResult.err "ETIMEDOUT") 0 :=
  ⟨(terminal_classification_in_caller false 3 3 "EAUTH" "ETIMEDOUT"
      (fun _ => SendAttemptResult.err "EAUTH")
      (fun _ => SendAttemptResult.err "ETIMEDOUT")
      (fun _ => rfl) (fun _ => rfl) (by decide) (by decide) (by decide)
      (by decide)).2.1,
   (terminal_classification_in_caller false 3 3 "EAUTH" "ETIMEDOUT"
      (fun _ => SendAttemptResult.err "EAUTH")
      (fun _ => SendAttemptResult.err "ETIMEDOUT")
      (fun _ => rfl) (fun _ => rfl) (by decide) (by decide) (by decide)
      (by decide)).2.2.1⟩

-- ===== C8 =====

/-- A disallowed `checkSmtpRateLimit` always reports a positive wait (the
remaining cooldown is positive by the branch condition, and the
rate-limit-exceeded wait is the nonzero `cooldownDuration`). -/
theorem checkSmtpRateLimit_disallowed_wait_pos (st : RateLimitState) (now : Nat)
    (hcd : st.cooldownDuration ≠ 0)
    (h : (checkSmtpRateLimit true st now).1.allowed = false) :
    0 < (checkSmtpRateLimit true st now).1.waitTime := by
  unfold checkSmtpRateLimit at h ⊢
  simp only [Bool.true_eq_false, if_false] at h ⊢
  by_cases hcool : st.isCoolingDown = true
  · rw [if_pos hcool] at h ⊢
    by_cases hleft : ((st.cooldownStartTime.getD 0 : Int) +
        (st.cooldownDuration : Int) - (now : Int)) ≤ 0
    · rw [if_pos hleft] at h
      simp at h
    · rw [if_neg hleft] at h ⊢
      simp only []
      omega
  · rw [if_neg hcool] at h ⊢
    by_cases hlim :
        (if 60000 ≤ now - st.currentMinuteStart
          then resetRateLimitCounter st now else st).emailsPerMinute ≤
        (if 60000 ≤ now - st.currentMinuteStart
          then resetRateLimitCounter st now else st).emailsSentInCurrentMinute
    · rw [if_pos hlim]
      simp only []
      split
      · simpa [resetRateLimitCounter] using Nat.pos_of_ne_zero hcd
      · exact Nat.pos_of_ne_zero hcd
    · rw [if_neg hlim] at h
      simp at h

/-- Shape of every `sendGate` outcome, provided disallowed checks carry a
positive wait: a fall-through means the last check allowed the send; at
most `5 - retryCount` backoff waits are performed, each capped at
30000 ms; exhaustion reports retry count 5. -/
theorem sendGate_spec (check : Nat → RateCheckResult)
    (H : ∀ n, (check n).allowed = false → 0 < (check n).waitTime) :
    ∀ k rc, 5 - rc ≤ k →
      (∀ ws b, sendGate check rc = GateOutcome.proceed ws b →
        b = true ∧ ws.length ≤ 5 - rc ∧ ∀ w ∈ ws, w ≤ 30000) ∧
      (∀ ws r, sendGate check rc = GateOutcome.rateLimitExceeded ws r →
        ws.length = 5 - rc ∧ (rc ≤ 5 → r = 5) ∧ ∀ w ∈ ws, w ≤ 30000) := by
  intro k
  induction k with
  | zero =>
    intro rc hk
    have hrc : 5 ≤ rc := by omega
    rw [sendGate]
    by_cases hal : (check rc).allowed
    · rw [if_pos hal]
      constructor
      · intro ws b heq
        cases heq
        exact ⟨rfl, by simp, by simp⟩
      · intro ws r heq
        cases heq
    · rw [if_neg hal, if_pos hrc]
      constructor
      · intro ws b heq
        cases heq
      · intro ws r heq
        cases heq
        exact ⟨by simp; omega, by omega, by simp⟩
  | succ kk ih =>
    intro rc hk
    by_cases hrc : 5 ≤ rc
    · exact ih rc (by omega)
    · rw [sendGate]
      by_cases hal : (check rc).allowed
      · rw [if_pos hal]
        constructor
        · intro ws b heq
          cases heq
          exact ⟨rfl, by simp, by simp⟩
        · intro ws r heq
          cases heq
      · rw [if_neg hal, if_neg hrc,
          if_pos (H rc (Bool.not_eq_true _ ▸ hal))]
        have ihn := ih (rc + 1) (by omega)
        constructor
        · intro ws b heq
          split at heq
          · rename_i ws2 b2 hrec
            cases heq
            obtain ⟨hb, hlen, hcap⟩ := ihn.1 _ _ hrec
            refine ⟨hb, by simp; omega, ?_⟩
            intro w hw
            rcases List.mem_cons.mp hw with hw | hw
            · subst hw; exact Nat.min_le_right _ _
            · exact hcap w hw
          · rename_i ws2 r2 hrec
            cases heq
        · intro ws r heq
          split at heq
          · rename_i ws2 b2 hrec
            cases heq
          · rename_i ws2 r2 hrec
            cases heq
            obtain ⟨hlen, hr, hcap⟩ := ihn.2 _ _ hrec
            refine ⟨by simp; omega, fun _ => hr (by omega), ?_⟩
            intro w hw
            rcases List.mem_cons.mp hw with hw | hw
            · subst hw; exact Nat.min_le_right _ _
            · exact hcap w hw

/-- When every check is disallowed, the gate exhausts its 5 internal
retries and fails with the rate-limit-exceeded outcome. -/
theorem sendGate_all_disallowed (check : Nat → RateCheckResult)
    (H : ∀ n, (check n).allowed = false → 0 < (check n).waitTime)
    (hall : ∀ n, (check n).allowed = false) :
    ∀ k rc, 5 - rc ≤ k → rc ≤ 5 →
      ∃ ws, sendGate check rc = GateOutcome.rateLimitExceeded ws 5 ∧
        ws.length = 5 - rc := by
  intro k
  induction k with
  | zero =>
    intro rc hk hrc5
    have hrc : rc = 5 := by omega
    subst hrc
    rw [sendGate, if_neg (by simp [hall 5]), if_pos (by omega)]
    exact ⟨[], rfl, by simp⟩
  | succ kk ih =>
    intro rc hk hrc5
    by_cases hrc : 5 ≤ rc
    · exact ih rc (by omega) hrc5
    · rw [sendGate, if_neg (by simp [hall rc]), if_neg hrc,
        if_pos (H rc (hall rc))]
      obtain ⟨ws', heq', hlen'⟩ := ih (rc + 1) (by omega) (by omega)
      rw [heq']
      exact ⟨_ :: ws', rfl, by simp; omega⟩

/-- C8: with servers whose `cooldownDuration` is nonzero (as the
constructor guarantees), `sendMail`'s rate-limit gate never falls through
to transmission while its most recent check was disallowed — a
fall-through implies the final check allowed the send — its backoff waits
number at most 5 and are each capped at 30 seconds, and when every check
is disallowed it exhausts exactly 5 internal retries and fails with the
rate-limit-exceeded error.  `sts n`/`times n` are the rate-limit state
and clock observed by the check at recursion depth `n`. -/
theorem rate_gate_no_send_while_disallowed
    (sts : Nat → RateLimitState) (times : Nat → Nat)
    (hcd : ∀ n, (sts n).cooldownDuration ≠ 0) :
    (∀ ws b,
      sendGate (fun n => (checkSmtpRateLimit true (sts n) (times n)).1) 0 =
        GateOutcome.proceed ws b →
      b = true ∧ ws.length ≤ 5 ∧ ∀ w ∈ ws, w ≤ 30000) ∧
    ((∀ n, (checkSmtpRateLimit true (sts n) (times n)).1.allowed = false) →
      ∃ ws,
        sendGate (fun n => (checkSmtpRateLimit true (sts n) (times n)).1) 0 =
          GateOutcome.rateLimitExceeded ws 5 ∧ ws.length = 5) := by
  have H : ∀ n,
      ((fun n => (checkSmtpRateLimit true (sts n) (times n)).1) n).allowed = false →
      0 < ((fun n => (checkSmtpRateLimit true (sts n) (times n)).1) n).waitTime :=
    fun n h => checkSmtpRateLimit_disallowed_wait_pos (sts n) (times n) (hcd n) h
  constructor
  · intro ws b heq
    have hs := (sendGate_spec _ H 5 0 (by omega)).1 ws b heq
    exact ⟨hs.1, by simpa using hs.2.1, hs.2.2⟩
  · intro hall
    obtain ⟨ws, heq, hlen⟩ :=
      sendGate_all_disallowed _ H hall 5 0 (by omega) (by omega)
    exact ⟨ws, heq, by simpa using hlen⟩

/-- Witness for C8: a server stuck in a fresh 60-second cooldown at time
0 — every check is disallowed, and the gate exhausts its 5 retries. -/
theorem rate_gate_no_send_while_disallowed_witness :
    ∃ ws,
      sendGate (fun _ =>
        (checkSmtpRateLimit true
          ⟨0, 0, 0, false, true, some 0, 60000, 30, 0, 0⟩ 0).1) 0 =
        GateOutcome.rateLimitExceeded ws 5 ∧ ws.length = 5 :=
  (rate_gate_no_send_while_disallowed
    (fun _ => ⟨0, 0, 0, false, true, some 0, 60000, 30, 0, 0⟩) (fun _ => 0)
    (fun _ => (by decide : (60000 : Nat) ≠ 0))).2
    (fun _ => (by decide :
      (checkSmtpRateLimit true
        ⟨0, 0, 0, false, true, some 0, 60000, 30, 0, 0⟩ 0).1.allowed = false))

-- ===== C6 =====

/-- A server passing the availability filter is healthy. -/
theorem smtpAvailable_healthy (rle : Bool) (s : SmtpServerEntry)
    (h : smtpAvailable rle s = true) : s.health.is_healthy = true := by
  unfold smtpAvailable at h
  cases rle with
  | true =>
    simp only [if_pos] at h
    exact (Bool.and_eq_true _ _ |>.mp ((Bool.and_eq_true _ _ |>.mp h).1)).1
  | false => simpa using h

/-- C6 counterexample: two healthy servers, both cooling down, with
priorities 1 and 5.  The availability filter is empty, so
`getAvailableSMTPs` falls back to the healthy list — returned in index
order, priority 1 before priority 5, not sorted by descending priority:
the fallback path skips the sort. -/
theorem getAvailableSMTPs_fallback_unsorted :
    getAvailableSMTPs true true
      [⟨0, 1, SmtpHealth.init, ⟨0, 0, 0, false, true, some 0, 60000, 30, 0, 0⟩⟩,
       ⟨1, 5, SmtpHealth.init, ⟨1, 0, 0, false, true, some 0, 60000, 30, 0, 0⟩⟩] =
      [⟨0, 1, SmtpHealth.init, ⟨0, 0, 0, false, true, some 0, 60000, 30, 0, 0⟩⟩,
       ⟨1, 5, SmtpHealth.init, ⟨1, 0, 0, false, true, some 0, 60000, 30, 0, 0⟩⟩] ∧
    ¬ List.Sorted smtpOrder (getAvailableSMTPs true true
      [⟨0, 1, SmtpHealth.init, ⟨0, 0, 0, false, true, some 0, 60000, 30, 0, 0⟩⟩,
       ⟨1, 5, SmtpHealth.init, ⟨1, 0, 0, false, true, some 0, 60000, 30, 0, 0⟩⟩]) := by
  have h1 : getAvailableSMTPs true true
      [⟨0, 1, SmtpHealth.init, ⟨0, 0, 0, false, true, some 0, 60000, 30, 0, 0⟩⟩,
       ⟨1, 5, SmtpHealth.init, ⟨1, 0, 0, false, true, some 0, 60000, 30, 0, 0⟩⟩] =
      [⟨0, 1, SmtpHealth.init, ⟨0, 0, 0, false, true, some 0, 60000, 30, 0, 0⟩⟩,
       ⟨1, 5, SmtpHealth.init, ⟨1, 0, 0, false, true, some 0, 60000, 30, 0, 0⟩⟩] := by
    decide
  refine ⟨h1, fun hs => ?_⟩
  rw [h1] at hs
  have honeTwo :=
    (List.sorted_cons.mp hs).1
      ⟨1, 5, SmtpHealth.init, ⟨1, 0, 0, false, true, some 0, 60000, 30, 0, 0⟩⟩
      (by simp)
  exact absurd honeTwo (by decide)

/-- C6 (amended): every server returned by `getAvailableSMTPs` is
healthy (the fallback never surfaces an unhealthy server); when the
availability filter is non-empty the result is that filtered set sorted
by descending priority with ties broken by ascending consecutive-failure
count; but when the filter is empty the fallback returns the healthy
servers in index order, unsorted. -/
theorem available_smtps_healthy_and_sorted
    (re rle : Bool) (servers : List SmtpServerEntry) :
    (∀ s ∈ getAvailableSMTPs re rle servers, s.health.is_healthy = true) ∧
    ((if re then servers else servers.take 1).filter (smtpAvailable rle) ≠ [] →
      getAvailableSMTPs re rle servers =
        List.insertionSort smtpOrder
          ((if re then servers else servers.take 1).filter (smtpAvailable rle)) ∧
      List.Sorted smtpOrder (getAvailableSMTPs re rle servers)) ∧
    ((if re then servers else servers.take 1).filter (smtpAvailable rle) = [] →
      getAvailableSMTPs re rle servers =
        (if re then servers else servers.take 1).filter
          (fun s => s.health.is_healthy)) := by
  simp only [getAvailableSMTPs]
  by_cases hava :
      ((if re then servers else servers.take 1).filter (smtpAvailable rle)).length = 0
  · have hnil : (if re then servers else servers.take 1).filter (smtpAvailable rle) = [] :=
      List.length_eq_zero.mp hava
    rw [if_pos hava]
    by_cases hhe : 0 < ((if re then servers else servers.take 1).filter
        (fun s => s.health.is_healthy)).length
    · rw [if_pos hhe]
      refine ⟨?_, fun hne => absurd hnil hne, fun _ => rfl⟩
      intro s hs
      exact (List.mem_filter.mp hs).2
    · rw [if_neg hhe]
      have hhnil : (if re then servers else servers.take 1).filter
          (fun s => s.health.is_healthy) = [] := by
        rcases List.eq_nil_or_concat ((if re then servers else servers.take 1).filter
          (fun s => s.health.is_healthy)) with h | ⟨l, a, h⟩
        · exact h
        · exfalso; apply hhe; rw [h]; simp
      refine ⟨?_, fun hne => absurd hnil hne, fun _ => by rw [hnil, hhnil]; rfl⟩
      intro s hs
      rw [hnil] at hs
      simp at hs
  · have hne : (if re then servers else servers.take 1).filter (smtpAvailable rle) ≠ [] :=
      fun h => hava (by rw [h]; rfl)
    rw [if_neg hava]
    refine ⟨?_, fun _ => ⟨rfl, List.sorted_insertionSort smtpOrder _⟩,
      fun h => absurd h hne⟩
    intro s hs
    have hmem : s ∈ (if re then servers else servers.take 1).filter (smtpAvailable rle) :=
      (List.perm_insertionSort smtpOrder _).mem_iff.mp hs
    exact smtpAvailable_healthy rle s (List.mem_filter.mp hmem).2

/-- Witness for C6 (amended): one healthy, non-cooling server — the
filter is non-empty and the result is that singleton, sorted. -/
theorem available_smtps_healthy_and_sorted_witness :
    getAvailableSMTPs true true
      [⟨0, 3, SmtpHealth.init, ⟨0, 0, 0, false, false, none, 60000, 30, 0, 0⟩⟩] =
      List.insertionSort smtpOrder
        (([⟨0, 3, SmtpHealth.init, ⟨0, 0, 0, false, false, none, 60000, 30, 0, 0⟩⟩] :
          List SmtpServerEntry).filter (smtpAvailable true)) ∧
    List.Sorted smtpOrder (getAvailableSMTPs true true
      [⟨0, 3, SmtpHealth.init, ⟨0, 0, 0, false, false, none, 60000, 30, 0, 0⟩⟩]) := by
  have h := (available_smtps_healthy_and_sorted true true
    [⟨0, 3, SmtpHealth.init, ⟨0, 0, 0, false, false, none, 60000, 30, 0, 0⟩⟩]).2.1
    (by decide)
  exact ⟨h.1, h.2⟩

-- ===== C3 =====

/-- `assocFind` misses exactly the keys absent from the map. -/
theorem assocFind_eq_none_iff {κ ν : Type} [DecidableEq κ]
    (l : List (κ × ν)) (key : κ) :
    assocFind l key = none ↔ key ∉ l.map Prod.fst := by
  induction l with
  | nil => simp [assocFind]
  | cons p rest ih =>
    obtain ⟨k, v⟩ := p
    by_cases hk : k = key
    · subst hk
      simp [assocFind]
    · simp only [assocFind, if_neg hk, List.map_cons, List.mem_cons]
      rw [ih]
      constructor
      · rintro hn (hkey | hmem)
        · exact hk hkey.symm
        · exact hn hmem
      · intro hn hmem
        exact hn (Or.inr hmem)

/-- Deleting a present key strictly shrinks the map. -/
theorem assocRemove_length_lt {κ ν : Type} [DecidableEq κ]
    (l : List (κ × ν)) (key : κ)
    (h : (assocFind l key).isSome = true) :
    (assocRemove l key).length < l.length := by
  induction l with
  | nil => simp [assocFind] at h
  | cons p rest ih =>
    obtain ⟨k, v⟩ := p
    by_cases hk : k = key
    · subst hk
      simp only [assocRemove, List.filter_cons, decide_eq_true_eq]
      rw [if_neg (by simp)]
      calc (rest.filter (fun p => p.1 ≠ k)).length
          ≤ rest.length := List.length_filter_le _ _
        _ < (⟨k, v⟩ :: rest : List (κ × ν)).length := by simp
    · rw [assocFind, if_neg hk] at h
      have := ih h
      simp only [assocRemove, List.filter_cons, decide_eq_true_eq] at *
      rw [if_pos (by simp; exact fun he => hk he)]
      simpa using this

/-- One `set` keeps the cache within `maxSize` entries (capacity at least
10, threshold as built by the constructor), and touches neither the
capacity nor the threshold. -/
theorem set_preserves_bound (c : LRUCache) (k v : Nat)
    (hcap : 10 ≤ c.maxSize) (hthr : c.cleanupThreshold = c.maxSize / 10)
    (hlen : c.cache.length ≤ c.maxSize) :
    (c.set k v).cache.length ≤ c.maxSize ∧
    (c.set k v).maxSize = c.maxSize ∧
    (c.set k v).cleanupThreshold = c.cleanupThreshold := by
  unfold LRUCache.set
  by_cases hhit : (assocFind c.cache k).isSome = true
  · rw [if_pos hhit]
    refine ⟨?_, rfl, rfl⟩
    have := assocRemove_length_lt c.cache k hhit
    simp only [List.length_append, List.length_cons, List.length_nil]
    omega
  · rw [if_neg hhit]
    by_cases hfull : c.maxSize ≤ c.cache.length
    · rw [if_pos hfull]
      refine ⟨?_, rfl, rfl⟩
      simp only [LRUCache.batchCleanup, List.length_append, List.length_drop,
        List.length_cons, List.length_nil]
      omega
    · rw [if_neg hfull]
      refine ⟨?_, rfl, rfl⟩
      simp only [List.length_append, List.length_cons, List.length_nil]
      omega

/-- Looking a key up in a concatenation searches the front part first. -/
theorem assocFind_append_of_none {κ ν : Type} [DecidableEq κ]
    (l1 l2 : List (κ × ν)) (key : κ) (h : assocFind l1 key = none) :
    assocFind (l1 ++ l2) key = assocFind l2 key := by
  induction l1 with
  | nil => simp
  | cons p rest ih =>
    obtain ⟨k, v⟩ := p
    by_cases hk : k = key
    · rw [assocFind, if_pos hk] at h
      exact absurd h (by simp)
    · rw [assocFind, if_neg hk] at h
      rw [List.cons_append, assocFind, if_neg hk]
      exact ih h

/-- C3 counterexample: a capacity-1 cache (so `_cleanupThreshold = 0`)
holding one entry receives a second `set`: the batch cleanup deletes
nothing and the cache ends up with 2 > 1 entries — the claimed bound
fails for every capacity below 10. -/
theorem lru_set_overflows_small_capacity :
    (((LRUCache.mkCache 1).set 1 10).set 2 20).cache.length = 2 ∧
    ¬ ((((LRUCache.mkCache 1).set 1 10).set 2 20).cache.length ≤ 1) := by
  decide

/-- C3 (amended): for capacities of at least 10 the batch eviction
(`⌊capacity/10⌋ ≥ 1` least-recently-used entries) keeps every cache
reachable by `set` operations within capacity, and a key evicted by the
batch cleanup (and not re-inserted) subsequently misses; for capacities
below 10 the eviction batch is empty and an insert into a full cache
exceeds the capacity. -/
theorem lru_batch_eviction_bound
    (cap : Nat) (hcap : 10 ≤ cap) (ops : List (Nat × Nat))
    (c : LRUCache) (hms : c.maxSize = cap) (hthr : c.cleanupThreshold = cap / 10)
    (hnd : (c.cache.map Prod.fst).Nodup)
    (k v kEvicted : Nat) (hmiss : assocFind c.cache k = none)
    (hfull : cap ≤ c.cache.length)
    (hkev : kEvicted ∈ (c.cache.take (cap / 10)).map Prod.fst) :
    ((LRUCache.mkCache cap).runSets ops).cache.length ≤ cap ∧
    assocFind (c.set k v).cache kEvicted = none := by
  constructor
  · have hgen : ∀ (ops : List (Nat × Nat)) (c0 : LRUCache),
        c0.maxSize = cap → c0.cleanupThreshold = cap / 10 →
        c0.cache.length ≤ cap → (c0.runSets ops).cache.length ≤ cap := by
      intro ops
      induction ops with
      | nil => intro c0 _ _ h; exact h
      | cons p rest ih =>
        intro c0 hm ht hl
        obtain ⟨hl', hm', ht'⟩ :=
          set_preserves_bound c0 p.1 p.2 (by rw [hm]; exact hcap)
            (by rw [ht, hm]) (by rw [hm]; exact hl)
        show ((c0.set p.1 p.2).runSets rest).cache.length ≤ cap
        refine ih (c0.set p.1 p.2) (by rw [hm', hm]) (by rw [ht', ht]) ?_
        rw [← hm]
        exact hl'
    exact hgen ops (LRUCache.mkCache cap) rfl rfl (by simp [LRUCache.mkCache])
  · have hknot : k ∉ c.cache.map Prod.fst := (assocFind_eq_none_iff _ _).mp hmiss
    have hkev' : kEvicted ∈ c.cache.map Prod.fst := by
      have := List.take_subset (cap / 10) c.cache
      rcases List.mem_map.mp hkev with ⟨p, hp, hpe⟩
      exact List.mem_map.mpr ⟨p, this hp, hpe⟩
    have hne : ¬ (k = kEvicted) := fun he => hknot (he ▸ hkev')
    unfold LRUCache.set
    rw [if_neg (by simp [hmiss]), if_pos (hms ▸ hfull)]
    simp only [LRUCache.batchCleanup]
    have hdropnone : assocFind (c.cache.drop c.cleanupThreshold) kEvicted = none := by
      rw [assocFind_eq_none_iff]
      rw [← List.take_append_drop c.cleanupThreshold c.cache, List.map_append] at hnd
      have hdisj := (List.nodup_append.mp hnd).2.2
      intro hmem
      exact hdisj (hthr ▸ hkev) hmem
    rw [assocFind_append_of_none _ _ _ hdropnone]
    rw [assocFind, if_neg hne]
    rfl

/-- Witness for C3 (amended): a full capacity-10 cache with keys 0..9;
inserting key 10 evicts key 0, which subsequently misses, and a run of
sets on a fresh cache stays within capacity. -/
theorem lru_batch_eviction_bound_witness :
    ((LRUCache.mkCache 10).runSets [(1, 1), (2, 2)]).cache.length ≤ 10 ∧
    assocFind ((⟨10, [(0, 0), (1, 1), (2, 2), (3, 3), (4, 4), (5, 5), (6, 6),
        (7, 7), (8, 8), (9, 9)], 0, 1⟩ : LRUCache).set 10 99).cache 0 = none :=
  ⟨(lru_batch_eviction_bound 10 (by decide) [(1, 1), (2, 2)]
      ⟨10, [(0, 0), (1, 1), (2, 2), (3, 3), (4, 4), (5, 5), (6, 6), (7, 7),
        (8, 8), (9, 9)], 0, 1⟩ (by decide) (by decide) (by decide) 10 99 0
      (by decide) (by decide) (by decide)).1,
   (lru_batch_eviction_bound 10 (by decide) [(1, 1), (2, 2)]
      ⟨10, [(0, 0), (1, 1), (2, 2), (3, 3), (4, 4), (5, 5), (6, 6), (7, 7),
        (8, 8), (9, 9)], 0, 1⟩ (by decide) (by decide) (by decide) 10 99 0
      (by decide) (by decide) (by decide)).2⟩

-- ===== C4 =====

/-- One `getNext()` step from an in-range sequential index `i`: the item
at `i` is selected, the index advances to `(i + 1) % N`, and the usage
map is bumped (and trimmed past 1000 keys). -/
theorem getNextSeq_step {α : Type} [DecidableEq α] [Inhabited α]
    (l : List α) (i : Nat) (hi : i < l.length) (stats : List (α × Nat)) :
    getNextSeq ⟨l, (i : Int), stats⟩ =
      some (l.getD i default,
        ⟨l, (((i + 1) % l.length : Nat) : Int),
          if 1000 < (bumpUsage stats (l.getD i default)).length
          then trimStats (bumpUsage stats (l.getD i default)) (l.getD i default)
          else bumpUsage stats (l.getD i default)⟩) := by
  have h0 : ¬ (l.length = 0) := by omega
  have hcond : ¬ ((l.length : Int) ≤ ((i : Nat) : Int) ∨ ((i : Nat) : Int) < 0) := by
    omega
  have hsafe : (max 0 (min ((i : Nat) : Int) ((l.length : Int) - 1))).toNat = i := by
    omega
  have hidx : (((i : Nat) : Int) + 1) % (l.length : Int) =
      (((i + 1) % l.length : Nat) : Int) := by
    rw [Int.natCast_mod]
    push_cast
    ring
  simp only [getNextSeq, if_neg h0, if_neg hcond, hsafe, hidx]

/-- The item sequence produced by `n` consecutive sequential `getNext()`
calls from index `i`: the `j`-th selection is the item at `(i + j) % N`,
the item list never changes, and the index ends at `(i + n) % N`. -/
theorem collectSeq_formula {α : Type} [DecidableEq α] [Inhabited α] (l : List α) :
    ∀ (n i : Nat) (stats : List (α × Nat)), i < l.length →
      (collectSeq ⟨l, (i : Int), stats⟩ n).1 =
        (List.range n).map (fun j => l.getD ((i + j) % l.length) default) ∧
      (collectSeq ⟨l, (i : Int), stats⟩ n).2.items = l ∧
      (collectSeq ⟨l, (i : Int), stats⟩ n).2.currentIndex =
        (((i + n) % l.length : Nat) : Int) := by
  intro n
  induction n with
  | zero =>
    intro i stats hi
    refine ⟨by simp [collectSeq], by simp [collectSeq], ?_⟩
    simp [collectSeq, Nat.mod_eq_of_lt hi]
  | succ n ih =>
    intro i stats hi
    have hlen : 0 < l.length := by omega
    have hmod : (i + 1) % l.length < l.length := Nat.mod_lt _ hlen
    simp only [collectSeq, getNextSeq_step l i hi stats]
    obtain ⟨h1, h2, h3⟩ := ih ((i + 1) % l.length)
      (if 1000 < (bumpUsage stats (l.getD i default)).length
        then trimStats (bumpUsage stats (l.getD i default)) (l.getD i default)
        else bumpUsage stats (l.getD i default)) hmod
    refine ⟨?_, h2, ?_⟩
    · rw [h1, List.range_succ_eq_map, List.map_cons, List.map_map]
      congr 1
      · simp [Nat.mod_eq_of_lt hi]
      · apply List.map_congr_left
        intro j _
        simp only [Function.comp]
        congr 1
        rw [Nat.mod_add_mod]
        congr 1
        omega
    · rw [h3]
      congr 1
      rw [Nat.mod_add_mod]
      congr 1
      omega

/-- C4: for a non-empty item list under `sequential` rotation with an
in-range current index `i`, `N = items.length` consecutive `getNext()`
calls return the items rotated to start at `i` — each item exactly once,
in list order, wrapping past the last item — and leave the index back at
`i` (it wraps to 0 right after item `N - 1` is served). -/
theorem sequential_rotation_round_robin {α : Type} [DecidableEq α] [Inhabited α]
    (l : List α) (i : Nat) (stats : List (α × Nat)) (hi : i < l.length) :
    (collectSeq ⟨l, (i : Int), stats⟩ l.length).1 = l.rotate i ∧
    (collectSeq ⟨l, (i : Int), stats⟩ l.length).1.Perm l ∧
    (collectSeq ⟨l, (i : Int), stats⟩ l.length).2.currentIndex = (i : Int) := by
  have hlen : 0 < l.length := by omega
  obtain ⟨h1, _, h3⟩ := collectSeq_formula l l.length i stats hi
  have hrot : (List.range l.length).map
      (fun j => l.getD ((i + j) % l.length) default) = l.rotate i := by
    apply List.ext_getElem
    · simp [List.length_rotate]
    · intro j hj1 hj2
      simp only [List.getElem_map, List.getElem_range]
      rw [List.getElem_rotate]
      rw [List.getD_eq_getElem l default (Nat.mod_lt _ hlen)]
      rw [Nat.add_comm i j]
  refine ⟨h1.trans hrot, ?_, ?_⟩
  · rw [h1, hrot]
    exact l.rotate_perm i
  · rw [h3]
    congr 1
    rw [Nat.add_mod_right, Nat.mod_eq_of_lt hi]

/-- Witness for C4: three items, starting index 1 — the three selections
are the list rotated by one, a permutation of the items, and the index
returns to 1. -/
theorem sequential_rotation_round_robin_witness :
    (collectSeq (⟨[10, 20, 30], ((1 : Nat) : Int), []⟩ : RotationState Nat) 3).1 =
      [10, 20, 30].rotate 1 ∧
    (collectSeq (⟨[10, 20, 30], ((1 : Nat) : Int), []⟩ : RotationState Nat) 3).1.Perm
      [10, 20, 30] ∧
    (collectSeq (⟨[10, 20, 30], ((1 : Nat) : Int), []⟩ : RotationState Nat) 3).2.currentIndex =
      ((1 : Nat) : Int) :=
  sequential_rotation_round_robin [10, 20, 30] 1 [] (by decide)

-- ===== C9 =====

/-- The trimmed usage map never exceeds 101 entries: the top-100 slice
plus at most the re-inserted current key. -/
theorem trimStats_length_le {α : Type} [DecidableEq α]
    (stats : List (α × Nat)) (key : α) :
    (trimStats stats key).length ≤ 101 := by
  simp only [trimStats]
  split
  · exact le_trans (List.length_take_le _ _) (by omega)
  · simp only [List.length_append, List.length_cons, List.length_nil]
    have := List.length_take_le 100 (List.insertionSort usageOrder stats)
    omega

/-- C9 (amended): whenever a `getNext()` call pushes the usage-count map
past 1000 keys, the state it leaves behind holds at most 101 entries —
the top-100 most used keys, plus the just-selected key re-inserted when
the trim dropped it (so the claimed bound of 100 is exceeded by exactly
that one re-insertion). -/
theorem usage_stats_trim_bound {α : Type} [DecidableEq α] [Inhabited α]
    (s : RotationState α) (x : α) (s' : RotationState α)
    (hstep : getNextSeq s = some (x, s'))
    (hbig : 1000 < (bumpUsage s.usageStats x).length) :
    s'.usageStats.length ≤ 101 := by
  unfold getNextSeq at hstep
  by_cases h0 : s.items.length = 0
  · rw [if_pos h0] at hstep
    exact absurd hstep (by simp)
  · rw [if_neg h0] at hstep
    simp only [Option.some.injEq, Prod.mk.injEq] at hstep
    obtain ⟨hx, hs'⟩ := hstep
    subst hx
    subst hs'
    simp only []
    rw [if_pos hbig]
    exact trimStats_length_le _ _

set_option maxRecDepth 40000 in
/-- Witness for C9 (amended): a single-item selector whose usage map
already has 1001 keys (the selected key among them); the call after the
bump trims the map to at most 101 entries. -/
theorem usage_stats_trim_bound_witness :
    1000 < (bumpUsage ((List.range 1001).map (fun a => (a, 1))) 0).length ∧
    (((getNextSeq (⟨[0], ((0 : Nat) : Int), (List.range 1001).map (fun a => (a, 1))⟩ :
        RotationState Nat)).getD (0, ⟨[], 0, []⟩)).2).usageStats.length ≤ 101 := by
  have hb : 1000 < (bumpUsage ((List.range 1001).map (fun a => (a, 1))) 0).length := by
    decide
  exact ⟨hb,
    usage_stats_trim_bound
      (⟨[0], ((0 : Nat) : Int), (List.range 1001).map (fun a => (a, 1))⟩ :
        RotationState Nat) _ _ rfl hb⟩

/-- The state after one `getNext()` call (identity when the call throws
on an empty list). -/
def runStep {α : Type} [DecidableEq α] [Inhabited α] (s : RotationState α) :
    RotationState α :=
  ((getNextSeq s).map Prod.snd).getD s

/-- Peeling the last call off a run. -/
theorem runGetNexts_succ {α : Type} [DecidableEq α] [Inhabited α]
    (n : Nat) : ∀ s : RotationState α,
    runGetNexts s (n + 1) = runStep (runGetNexts s n) := by
  induction n with
  | zero =>
    intro s
    cases hg : getNextSeq s with
    | none => simp [runGetNexts, runStep, hg]
    | some p => simp [runGetNexts, runStep, hg]
  | succ n ih =>
    intro s
    cases hg : getNextSeq s with
    | none =>
      have hfix : ∀ m, runGetNexts s m = s := by
        intro m
        cases m with
        | zero => rfl
        | succ m => simp [runGetNexts, hg]
      rw [hfix, hfix, runStep, hg]
      rfl
    | some p =>
      have h1 : runGetNexts s (n + 1 + 1) = runGetNexts p.2 (n + 1) := by
        simp [runGetNexts, hg]
      have h2 : runGetNexts s (n + 1) = runGetNexts p.2 n := by
        simp [runGetNexts, hg]
      rw [h1, h2, ih p.2]

/-- Bumping an absent key appends it with count 1. -/
theorem bumpUsage_not_mem {α : Type} [DecidableEq α]
    (stats : List (α × Nat)) (key : α) (h : key ∉ stats.map Prod.fst) :
    bumpUsage stats key = stats ++ [(key, 1)] := by
  induction stats with
  | nil => rfl
  | cons p rest ih =>
    obtain ⟨k, c⟩ := p
    simp only [List.map_cons, List.mem_cons] at h
    push_neg at h
    rw [bumpUsage, if_neg (fun he => h.1 he.symm), List.cons_append, ih h.2]

/-- A stable sort leaves a list alone when the order relation holds
between every pair of its elements (all ties). -/
theorem insertionSort_all_rel {α : Type} (r : α → α → Prop) [DecidableRel r] :
    ∀ l : List α, (∀ a ∈ l, ∀ b ∈ l, r a b) → List.insertionSort r l = l := by
  intro l
  induction l with
  | nil => intro _; rfl
  | cons x xs ih =>
    intro h
    rw [List.insertionSort,
      ih (fun a ha b hb => h a (List.mem_cons_of_mem x ha) b (List.mem_cons_of_mem x hb))]
    cases xs with
    | nil => rfl
    | cons y ys =>
      rw [List.orderedInsert, if_pos (h x (by simp) y (by simp))]

/-- Running `k ≤ 1000` fresh sequential calls over distinct items visits
the first `k` items and charges each a single usage count (no trim has
fired yet). -/
theorem runGetNexts_fresh {α : Type} [DecidableEq α] [Inhabited α]
    (l : List α) (hnd : l.Nodup) :
    ∀ k, k ≤ 1000 → k ≤ l.length →
      runGetNexts (⟨l, ((0 : Nat) : Int), []⟩ : RotationState α) k =
        ⟨l, ((k % l.length : Nat) : Int), (l.take k).map (fun a => (a, 1))⟩ := by
  intro k
  induction k with
  | zero =>
    intro _ _
    simp [runGetNexts, Nat.zero_mod]
  | succ k ih =>
    intro hk1000 hklen
    have hklen' : k < l.length := by omega
    rw [runGetNexts_succ, ih (by omega) (by omega)]
    have hkmod : k % l.length = k := Nat.mod_eq_of_lt hklen'
    rw [hkmod]
    unfold runStep
    rw [getNextSeq_step l k hklen' ((l.take k).map (fun a => (a, 1)))]
    simp only [Option.map_some', Option.getD_some]
    have hitem : l.getD k default = l[k] := List.getD_eq_getElem l default hklen'
    have hnotmem : l[k] ∉ l.take k := by
      intro hmem
      have hsplit := List.take_append_drop k l
      rw [← hsplit] at hnd
      have hdisj := (List.nodup_append.mp hnd).2.2
      have hdropmem : l[k] ∈ l.drop k := by
        have hdl : 0 < (l.drop k).length := by
          simp only [List.length_drop]
          omega
        have := List.getElem_mem hdl
        rw [List.getElem_drop] at this
        exact this
      exact hdisj hmem hdropmem
    have hbump : bumpUsage ((l.take k).map (fun a => (a, 1))) (l.getD k default) =
        ((l.take k).map (fun a => (a, 1))) ++ [(l.getD k default, 1)] := by
      apply bumpUsage_not_mem
      rw [hitem]
      intro hmem
      apply hnotmem
      rcases List.mem_map.mp hmem with ⟨a, ha, hae⟩
      rcases List.mem_map.mp ha with ⟨b, hb, hbe⟩
      rw [← hae, ← hbe]
      exact hb
    rw [hbump]
    have hlen1 : (((l.take k).map (fun a => (a, 1))) ++ [(l.getD k default, 1)]).length =
        k + 1 := by
      simp only [List.length_append, List.length_map, List.length_take,
        List.length_cons, List.length_nil]
      omega
    rw [if_neg (by rw [hlen1]; omega)]
    have htake : l.take (k + 1) = l.take k ++ [l[k]] := by
      rw [List.take_succ, List.getElem?_eq_getElem hklen']
      rfl
    rw [htake, List.map_append, hitem]
    rfl

/-- C9 counterexample: a fresh sequential selector over 1001 distinct
items, called 1001 times.  The 1001st call pushes the usage map to 1001
keys; the trim keeps the top 100 (all counts are 1, so the stable sort
keeps the first 100 keys) and then re-inserts the just-selected 1001st
key, leaving 101 entries — more than the 100 the claim allows. -/
theorem usage_stats_trim_exceeds_100 :
    (runGetNexts (⟨List.range 1001, ((0 : Nat) : Int), []⟩ : RotationState Nat)
      1001).usageStats.length = 101 ∧
    ¬ ((runGetNexts (⟨List.range 1001, ((0 : Nat) : Int), []⟩ : RotationState Nat)
      1001).usageStats.length ≤ 100) := by
  have hlen1001 : (List.range 1001).length = 1001 := List.length_range 1001
  have h1000 := runGetNexts_fresh (List.range 1001) (List.nodup_range 1001)
    1000 (by omega) (by omega)
  have hmod : 1000 % (List.range 1001).length = 1000 := by
    rw [hlen1001]
  have htake1000 : (List.range 1001).take 1000 = List.range 1000 := by
    rw [List.take_range]
    norm_num
  rw [show (1001 : Nat) = 1000 + 1 from rfl, runGetNexts_succ, h1000, hmod, htake1000]
  unfold runStep
  have hlt : 1000 < (List.range 1001).length := by omega
  rw [getNextSeq_step (List.range 1001) 1000 hlt ((List.range 1000).map (fun a => (a, 1)))]
  simp only [Option.map_some', Option.getD_some]
  have hitem : (List.range 1001).getD 1000 default = 1000 := by
    rw [List.getD_eq_getElem _ default hlt, List.getElem_range]
  rw [hitem]
  have hbump : bumpUsage ((List.range 1000).map (fun a => (a, 1))) 1000 =
      ((List.range 1000).map (fun a => (a, 1))) ++ [(1000, 1)] := by
    apply bumpUsage_not_mem
    intro hmem
    rcases List.mem_map.mp hmem with ⟨p, hp, hpe⟩
    rcases List.mem_map.mp hp with ⟨b, hb, hbe⟩
    rw [← hbe] at hpe
    simp only at hpe
    rw [hpe] at hb
    exact absurd (List.mem_range.mp hb) (by omega)
  rw [hbump]
  have hlenb : (((List.range 1000).map (fun a => (a, 1))) ++ [((1000 : Nat), 1)]).length =
      1001 := by
    simp
  rw [if_pos (by rw [hlenb]; omega)]
  have hsort : List.insertionSort usageOrder
      (((List.range 1000).map (fun a => (a, 1))) ++ [((1000 : Nat), 1)]) =
      ((List.range 1000).map (fun a => (a, 1))) ++ [((1000 : Nat), 1)] := by
    apply insertionSort_all_rel
    intro a ha b hb
    have hone : ∀ p : Nat × Nat,
        p ∈ ((List.range 1000).map (fun a => (a, 1))) ++ [((1000 : Nat), 1)] →
        p.2 = 1 := by
      intro p hp
      rcases List.mem_append.mp hp with hp | hp
      · rcases List.mem_map.mp hp with ⟨b', _, hbe⟩
        rw [← hbe]
      · simp only [List.mem_singleton] at hp
        rw [hp]
    unfold usageOrder
    rw [hone a ha, hone b hb]
  have htake100 : (((List.range 1000).map (fun a => (a, 1))) ++
      [((1000 : Nat), 1)]).take 100 = (List.range 100).map (fun a => (a, 1)) := by
    rw [List.take_append_of_le_length (by simp), ← List.map_take, List.take_range]
    rfl
  have hfind : assocFind ((List.range 100).map (fun a => (a, 1))) 1000 = none := by
    rw [assocFind_eq_none_iff]
    intro hmem
    rcases List.mem_map.mp hmem with ⟨p, hp, hpe⟩
    rcases List.mem_map.mp hp with ⟨b, hb, hbe⟩
    rw [← hbe] at hpe
    simp only at hpe
    rw [hpe] at hb
    exact absurd (List.mem_range.mp hb) (by omega)
  have htrim : trimStats
      (((List.range 1000).map (fun a => (a, 1))) ++ [((1000 : Nat), 1)]) 1000 =
      ((List.range 100).map (fun a => (a, 1))) ++ [((1000 : Nat), 1)] := by
    unfold trimStats
    rw [hsort]
    simp only [htake100, hfind, Option.isSome_none, Bool.false_eq_true, if_false]
  rw [htrim]
  constructor
  · simp
  · simp
